import Mathlib

/-!
# Verification of the PCF8574 I2C GPIO expander driver (`pywiring/i2c.py`)

Shallow embedding of the `PCF8574IO` class.  The class keeps two 8-bit
registers in software: `_dirmask` (bit i = 1 means pin i is configured as
input) and `_shadow` (the last value transmitted to the chip's output
latch).  All bus traffic is single-byte reads/writes addressed to the
device address.

Modelling choices:
* numpy `uint8` casts become `% 256` (`u8`); numpy bitwise-not `~uint8 x`
  becomes `255 ^^^ u8 x` (the 8-bit complement).
* Each method becomes a function from the port state (plus the byte the
  bus would answer, for methods that read) to its result, the new port
  state and the list of bus transactions it issued, so that "exactly one
  bus transaction" is a statement about that list.
* Python pin indices are `Int` where the code compares them against the
  range `0 <= pin < number_of_pins` (they may be negative); `pin_mode`
  shifts by the pin, which requires a natural number in the embedding.
* Python dictionaries become association lists (iteration in insertion
  order, keys distinct).
-/

namespace PCF8574IO

/-- A single-byte I2C bus transaction: a read returning a byte, or a
write transmitting a byte, both at a device address. -/
inductive BusEvent where
  | rd (address : Nat) (result : Nat)
  | wr (address : Nat) (value : Nat)
deriving DecidableEq

/-- The mutable state of a `PCF8574IO` object: the immutable device
address, `_dirmask` and `_shadow`. -/
structure Port where
  address : Nat
  dirmask : Nat
  shadow  : Nat
deriving DecidableEq

/-- numpy `uint8(n)`: truncation to 8 bits. -/
def u8 (n : Nat) : Nat := n % 256

/-- `number_of_pins = 8` (class attribute). -/
def number_of_pins : Nat := 8

/-- `__init__`: `_dirmask = uint8(0xFF)` (all inputs) and `_shadow` is
the raw byte read from the chip (not masked). -/
def initPort (address initialByte : Nat) : Port :=
  { address := address, dirmask := u8 0xFF, shadow := initialByte }

/-- The bus read issued by `__init__`. -/
def initEvents (address initialByte : Nat) : List BusEvent :=
  [BusEvent.rd address initialByte]

/-- `write(value)`: `_shadow = value & ~uint8(_dirmask)`, then
`write_byte(address, int(_shadow))`. -/
def write (p : Port) (value : Nat) : Port × List BusEvent :=
  let sh := value &&& (255 ^^^ u8 p.dirmask)
  ({ p with shadow := sh }, [BusEvent.wr p.address sh])

/-- `read()`: `_dirmask & uint8(read_byte(address))`.  The state is
returned unchanged (the method assigns nothing). -/
def read (p : Port) (busByte : Nat) : Nat × Port × List BusEvent :=
  (p.dirmask &&& u8 busByte, p, [BusEvent.rd p.address busByte])

/-- `_poweroff_inputs()`: `write(_shadow)`. -/
def poweroff_inputs (p : Port) : Port × List BusEvent :=
  write p p.shadow

/-- The `_dirmask` update of `pin_mode` (the part that runs regardless of
`localonly`): set or clear bit `pin`. -/
def pinModeLocal (p : Port) (pin : Nat) (inp : Bool) : Port :=
  if inp then { p with dirmask := p.dirmask ||| u8 (1 <<< pin) }
  else { p with dirmask := p.dirmask &&& (255 ^^^ u8 (1 <<< pin)) }

/-- `pin_mode(pin, input, localonly=...)`: update `_dirmask`, then
`_poweroff_inputs()` unless `localonly`. -/
def pin_mode (p : Port) (pin : Nat) (inp localonly : Bool) : Port × List BusEvent :=
  let p1 := pinModeLocal p pin inp
  if localonly then (p1, []) else poweroff_inputs p1

/-- `port_mode(input)`: `_dirmask = uint8(0xFF)` or `uint8(0x00)`, then
`_poweroff_inputs()`. -/
def port_mode (p : Port) (inp : Bool) : Port × List BusEvent :=
  poweroff_inputs { p with dirmask := if inp then u8 0xFF else u8 0x00 }

/-- `pin_mode_bulk(pins)`: `pin_mode(pin, input, localonly=True)` for
each entry, then one `_poweroff_inputs()`. -/
def pin_mode_bulk (p : Port) (pins : List (Nat × Bool)) : Port × List BusEvent :=
  poweroff_inputs (pins.foldl (fun q pr => pinModeLocal q pr.1 pr.2) p)

/-- The loop body of `digital_read_bulk` for one requested pin: bit `pin`
of the port state read, or `none` when the pin is out of range. -/
def readBulkEntry (portstate : Nat) (pin : Int) : Option Bool :=
  if 0 ≤ pin ∧ pin < (number_of_pins : Int) then
    some (decide ((portstate >>> pin.toNat) &&& 0x01 = 1))
  else none

/-- `digital_read_bulk(*pins)`: one `read()`, then one dictionary entry
per requested pin. -/
def digital_read_bulk (p : Port) (pins : List Int) (busByte : Nat) :
    List (Int × Option Bool) × Port × List BusEvent :=
  let r := read p busByte
  (pins.map (fun pin => (pin, readBulkEntry r.1 pin)), r.2)

/-- `digital_read(pin)`: `digital_read_bulk(pin)[pin]`.  The key is
always present in the returned dictionary, so the lookup default is
never reached. -/
def digital_read (p : Port) (pin : Int) (busByte : Nat) :
    Option Bool × Port × List BusEvent :=
  let r := digital_read_bulk p [pin] busByte
  ((r.1.lookup pin).getD none, r.2)

/-- The loop body of `digital_write_bulk` for one dictionary entry:
set or clear bit `pin` of the accumulated shadow when the pin is in
range, otherwise leave it untouched. -/
def writeBulkStep (shadow : Nat) (entry : Int × Bool) : Nat :=
  if 0 ≤ entry.1 ∧ entry.1 < (number_of_pins : Int) then
    let bpin := 1 <<< entry.1.toNat
    if entry.2 then shadow ||| bpin else shadow &&& (255 ^^^ u8 bpin)
  else shadow

/-- `digital_write_bulk(pins)`: fold the entries over `_shadow`, then one
`write()`. -/
def digital_write_bulk (p : Port) (pins : List (Int × Bool)) : Port × List BusEvent :=
  write p (pins.foldl writeBulkStep p.shadow)

/-- `digital_write(pin, high)`: `digital_write_bulk({pin: high})`. -/
def digital_write (p : Port) (pin : Int) (high : Bool) : Port × List BusEvent :=
  digital_write_bulk p [(pin, high)]

/-- `analog_read(pin)`: `255 if digital_read(pin) else 0` (Python
truthiness: only `True` is truthy among `True`/`False`/`None`). -/
def analog_read (p : Port) (pin : Int) (busByte : Nat) :
    Nat × Port × List BusEvent :=
  let r := digital_read p pin busByte
  ((if r.1 = some true then 255 else 0), r.2)

/-- `analog_write(pin, value)`: `digital_write(pin, value > 0)`. -/
def analog_write (p : Port) (pin : Int) (value : Int) : Port × List BusEvent :=
  digital_write p pin (decide (value > 0))

/-- The driver operations that mutate or inspect a port, for reasoning
about arbitrary call sequences.  Read-like operations carry the byte the
bus answers. -/
inductive Op where
  | opPinMode (pin : Nat) (inp localonly : Bool)
  | opPortMode (inp : Bool)
  | opPinModeBulk (pins : List (Nat × Bool))
  | opWrite (value : Nat)
  | opDigitalWrite (pin : Int) (high : Bool)
  | opDigitalWriteBulk (pins : List (Int × Bool))
  | opRead (busByte : Nat)
  | opDigitalRead (pin : Int) (busByte : Nat)
  | opDigitalReadBulk (pins : List Int) (busByte : Nat)
  | opAnalogRead (pin : Int) (busByte : Nat)
  | opAnalogWrite (pin : Int) (value : Int)
deriving DecidableEq

/-- State transition of one operation. -/
def step (p : Port) : Op → Port
  | .opPinMode pin inp lo => (pin_mode p pin inp lo).1
  | .opPortMode inp => (port_mode p inp).1
  | .opPinModeBulk pins => (pin_mode_bulk p pins).1
  | .opWrite v => (write p v).1
  | .opDigitalWrite pin high => (digital_write p pin high).1
  | .opDigitalWriteBulk pins => (digital_write_bulk p pins).1
  | .opRead b => (read p b).2.1
  | .opDigitalRead pin b => (digital_read p pin b).2.1
  | .opDigitalReadBulk pins b => (digital_read_bulk p pins b).2.1
  | .opAnalogRead pin b => (analog_read p pin b).2.1
  | .opAnalogWrite pin v => (analog_write p pin v).1

/-- The operations after which the invariant is claimed: direction
changes with immediate application, and all the write operations. -/
def immediateApply : Op → Bool
  | .opPinMode _ _ lo => !lo
  | .opPortMode _ => true
  | .opPinModeBulk _ => true
  | .opWrite _ => true
  | .opDigitalWrite _ _ => true
  | .opDigitalWriteBulk _ => true
  | _ => false

/-- Run a sequence of operations. -/
def run (p : Port) (ops : List Op) : Port :=
  ops.foldl step p

/-! ## Bit-level helper lemmas -/

lemma u8_testBit (n i : Nat) : (u8 n).testBit i = (decide (i < 8) && n.testBit i) := by
  rw [u8, show (256 : Nat) = 2 ^ 8 from rfl, Nat.testBit_mod_two_pow]

lemma mask255_testBit (d i : Nat) :
    (255 ^^^ u8 d).testBit i = (decide (i < 8) && !d.testBit i) := by
  rw [Nat.testBit_xor, show (255 : Nat) = 2 ^ 8 - 1 from rfl,
    Nat.testBit_two_pow_sub_one, u8_testBit]
  by_cases h : i < 8 <;> simp [h]

lemma mask255_and (d : Nat) : (255 ^^^ u8 d) &&& d = 0 := by
  apply Nat.eq_of_testBit_eq
  intro i
  rw [Nat.testBit_and, mask255_testBit, Nat.zero_testBit]
  by_cases h : i < 8
  · cases hd : d.testBit i <;> simp [h, hd]
  · simp [h]

lemma write_inv (p : Port) (v : Nat) :
    (write p v).1.shadow &&& (write p v).1.dirmask = 0 := by
  show (v &&& (255 ^^^ u8 p.dirmask)) &&& p.dirmask = 0
  rw [Nat.and_assoc, mask255_and, Nat.and_zero]

lemma testBit_of_and1 (v k : Nat) : decide ((v >>> k) &&& 0x01 = 1) = v.testBit k := by
  rw [show (0x01 : Nat) = 1 from rfl, Nat.and_one_is_mod, Nat.shiftRight_eq_div_pow,
    Nat.testBit_to_div_mod]

lemma shiftLeft_one_testBit (k i : Nat) : (1 <<< k).testBit i = decide (i = k) := by
  rw [Nat.shiftLeft_eq, Nat.one_mul, Nat.testBit_two_pow]
  simp [eq_comm]

lemma lookup_cons_self {β : Type} (l : List (Int × β)) (a : Int) (b : β) :
    ((a, b) :: l).lookup a = some b := by
  simp [List.lookup]

lemma lookup_cons_ne {β : Type} (l : List (Int × β)) (a k : Int) (b : β) (h : a ≠ k) :
    ((k, b) :: l).lookup a = l.lookup a := by
  have hb : (a == k) = false := beq_eq_false_iff_ne.mpr h
  simp [List.lookup, hb]

lemma lookup_eq_none {β : Type} (l : List (Int × β)) (a : Int)
    (h : a ∉ l.map Prod.fst) : l.lookup a = none := by
  induction l with
  | nil => rfl
  | cons hd tl ih =>
    simp only [List.map_cons, List.mem_cons] at h
    push_neg at h
    have hb : (a == hd.1) = false := beq_eq_false_iff_ne.mpr h.1
    simp [List.lookup, hb, ih h.2]

/-! ## Claim theorems -/

/-- C1: for every 8-bit value `v`, `write v` stores as the new shadow the
value `v` with every input-configured bit (direction bit 1) cleared and
every other bit copied from `v`, and it issues exactly one bus write, of
that stored shadow, to the device address; the direction mask is
untouched. -/
theorem write_spec (p : Port) (v : Nat) (i : Nat) (hv : v < 256) :
    (write p v).1.shadow.testBit i = (v.testBit i && !p.dirmask.testBit i) ∧
    (write p v).2 = [BusEvent.wr p.address (write p v).1.shadow] ∧
    (write p v).1.dirmask = p.dirmask := by
  refine ⟨?_, rfl, rfl⟩
  show (v &&& (255 ^^^ u8 p.dirmask)).testBit i = _
  rw [Nat.testBit_and, mask255_testBit]
  by_cases h : i < 8
  · simp [h]
  · have h2 : (256 : Nat) ≤ 2 ^ i := by
      calc (256 : Nat) = 2 ^ 8 := rfl
        _ ≤ 2 ^ i := Nat.pow_le_pow_right (by norm_num) (by omega)
    have hv8 : v.testBit i = false := Nat.testBit_lt_two_pow (by omega)
    simp [h, hv8]

/-- Witness for C1 at `v = 255`, direction mask `0b00001111`, bit 4. -/
theorem write_spec_witness :
    (255 : Nat) < 256 ∧
      ((write ⟨32, 15, 0⟩ 255).1.shadow.testBit 4
          = ((255 : Nat).testBit 4 && !(15 : Nat).testBit 4) ∧
        (write ⟨32, 15, 0⟩ 255).2
          = [BusEvent.wr 32 (write ⟨32, 15, 0⟩ 255).1.shadow] ∧
        (write ⟨32, 15, 0⟩ 255).1.dirmask = 15) :=
  ⟨by decide, write_spec ⟨32, 15, 0⟩ 255 4 (by decide)⟩

/-- C2: starting from a freshly constructed port, running any sequence of
driver operations and then any direction-configuration operation with
immediate application (`localonly` not set, `port_mode`, `pin_mode_bulk`)
or any write operation (`write`, `digital_write`, `digital_write_bulk`)
leaves a state satisfying `shadow &&& dirmask = 0`. -/
theorem shadow_dirmask_invariant (addr b : Nat) (ops : List Op) (o : Op)
    (h : immediateApply o = true) :
    (step (run (initPort addr b) ops) o).shadow &&&
      (step (run (initPort addr b) ops) o).dirmask = 0 := by
  generalize run (initPort addr b) ops = p
  cases o with
  | opPinMode pin inp lo =>
    have hlo : lo = false := by
      cases lo
      · rfl
      · simp [immediateApply] at h
    subst hlo
    exact write_inv (pinModeLocal p pin inp) (pinModeLocal p pin inp).shadow
  | opPortMode inp =>
    exact write_inv _ _
  | opPinModeBulk pins =>
    exact write_inv _ _
  | opWrite v =>
    exact write_inv _ _
  | opDigitalWrite pin high =>
    exact write_inv _ _
  | opDigitalWriteBulk pins =>
    exact write_inv _ _
  | opRead bb => simp [immediateApply] at h
  | opDigitalRead pin bb => simp [immediateApply] at h
  | opDigitalReadBulk pins bb => simp [immediateApply] at h
  | opAnalogRead pin bb => simp [immediateApply] at h
  | opAnalogWrite pin v => simp [immediateApply] at h

/-- Witness for C2: a concrete three-call history ending in a `write`. -/
theorem shadow_dirmask_invariant_witness :
    immediateApply (Op.opWrite 0xFF) = true ∧
      (step (run (initPort 32 0xAB)
          [Op.opPortMode false, Op.opPinMode 3 true false, Op.opDigitalWrite 2 true])
        (Op.opWrite 0xFF)).shadow &&&
      (step (run (initPort 32 0xAB)
          [Op.opPortMode false, Op.opPinMode 3 true false, Op.opDigitalWrite 2 true])
        (Op.opWrite 0xFF)).dirmask = 0 :=
  ⟨by decide, shadow_dirmask_invariant 32 0xAB
    [Op.opPortMode false, Op.opPinMode 3 true false, Op.opDigitalWrite 2 true]
    (Op.opWrite 0xFF) (by decide)⟩

/-- C3: `read` issues exactly one bus read of the device address, leaves
the port state unchanged, and returns the byte read ANDed with the
direction mask; consequently `digital_read` on any output-configured pin
(direction bit 0) answers `false` no matter what the bus returns. -/
theorem read_spec (p : Port) (b : Nat) (i : Nat) (pin : Int)
    (hb : b < 256) (hpin : 0 ≤ pin ∧ pin < 8)
    (hout : p.dirmask.testBit pin.toNat = false) :
    (read p b).1.testBit i = (p.dirmask.testBit i && b.testBit i) ∧
    (read p b).2.1 = p ∧
    (read p b).2.2 = [BusEvent.rd p.address b] ∧
    (digital_read p pin b).1 = some false := by
  refine ⟨?_, rfl, rfl, ?_⟩
  · show (p.dirmask &&& u8 b).testBit i = _
    rw [Nat.testBit_and, u8_testBit]
    by_cases h : i < 8
    · simp [h]
    · have h2 : (256 : Nat) ≤ 2 ^ i := by
        calc (256 : Nat) = 2 ^ 8 := rfl
          _ ≤ 2 ^ i := Nat.pow_le_pow_right (by norm_num) (by omega)
      have hb8 : b.testBit i = false := Nat.testBit_lt_two_pow (by omega)
      simp [h, hb8]
  · have hrange : 0 ≤ pin ∧ pin < (number_of_pins : Int) := by
      simp only [number_of_pins]
      omega
    have hentry : readBulkEntry (p.dirmask &&& u8 b) pin = some false := by
      simp only [readBulkEntry, if_pos hrange, testBit_of_and1, Nat.testBit_and, hout,
        Bool.false_and]
    show ((([(pin, readBulkEntry (p.dirmask &&& u8 b) pin)] :
        List (Int × Option Bool)).lookup pin).getD none) = some false
    rw [lookup_cons_self, hentry]
    rfl

/-- Witness for C3: direction mask `0b00001010`, byte `0xFF` on the bus,
bit 1, output-configured pin 0. -/
theorem read_spec_witness :
    (255 : Nat) < 256 ∧ ((0 : Int) ≤ 0 ∧ (0 : Int) < 8) ∧
      (10 : Nat).testBit (Int.toNat 0) = false ∧
      ((read ⟨32, 10, 0⟩ 255).1.testBit 1 = ((10 : Nat).testBit 1 && (255 : Nat).testBit 1) ∧
        (read ⟨32, 10, 0⟩ 255).2.1 = ⟨32, 10, 0⟩ ∧
        (read ⟨32, 10, 0⟩ 255).2.2 = [BusEvent.rd 32 255] ∧
        (digital_read ⟨32, 10, 0⟩ 0 255).1 = some false) :=
  ⟨by decide, by decide, by decide,
    read_spec ⟨32, 10, 0⟩ 255 1 0 (by decide) (by decide) (by decide)⟩

/-- C4: `digital_read_bulk` issues exactly one bus read, leaves the state
unchanged, and its result maps every requested in-range pin to the
corresponding bit of the one masked read and every out-of-range pin to
`none`. -/
theorem digital_read_bulk_spec (p : Port) (pins : List Int) (b : Nat) (pin : Int)
    (hb : b < 256) (hmem : pin ∈ pins) :
    (digital_read_bulk p pins b).2.2 = [BusEvent.rd p.address b] ∧
    (digital_read_bulk p pins b).2.1 = p ∧
    (pin, if 0 ≤ pin ∧ pin < 8 then some ((p.dirmask &&& b).testBit pin.toNat) else none)
      ∈ (digital_read_bulk p pins b).1 := by
  refine ⟨rfl, rfl, ?_⟩
  have hu : u8 b = b := Nat.mod_eq_of_lt hb
  have hcond : (0 ≤ pin ∧ pin < (number_of_pins : Int)) ↔ (0 ≤ pin ∧ pin < 8) := by
    simp only [number_of_pins]
    omega
  have hentry : readBulkEntry (p.dirmask &&& u8 b) pin
      = (if 0 ≤ pin ∧ pin < 8 then some ((p.dirmask &&& b).testBit pin.toNat) else none) := by
    by_cases h : 0 ≤ pin ∧ pin < 8
    · rw [readBulkEntry, if_pos (hcond.mpr h), if_pos h, testBit_of_and1, hu]
    · rw [readBulkEntry, if_neg (fun hc => h (hcond.mp hc)), if_neg h]
  rw [← hentry]
  exact List.mem_map_of_mem _ hmem

/-- Witness for C4: pins `[1, 9, 0]`, one in-range hit at pin 1. -/
theorem digital_read_bulk_spec_witness :
    (255 : Nat) < 256 ∧ (1 : Int) ∈ [(1 : Int), 9, 0] ∧
      ((digital_read_bulk ⟨32, 10, 0⟩ [1, 9, 0] 255).2.2 = [BusEvent.rd 32 255] ∧
        (digital_read_bulk ⟨32, 10, 0⟩ [1, 9, 0] 255).2.1 = ⟨32, 10, 0⟩ ∧
        ((1 : Int), if (0 : Int) ≤ 1 ∧ (1 : Int) < 8 then
            some (((10 : Nat) &&& 255).testBit (Int.toNat 1)) else none)
          ∈ (digital_read_bulk ⟨32, 10, 0⟩ [1, 9, 0] 255).1) :=
  ⟨by decide, by decide,
    digital_read_bulk_spec ⟨32, 10, 0⟩ [1, 9, 0] 255 1 (by decide) (by decide)⟩

lemma writeBulkStep_testBit_self (s : Nat) (bv : Bool) (i : Nat) (hi : i < 8) :
    (writeBulkStep s ((i : Int), bv)).testBit i = bv := by
  have hrange : (0 : Int) ≤ ((i : Int), bv).1 ∧ ((i : Int), bv).1 < (number_of_pins : Int) := by
    simp only [number_of_pins]
    omega
  rw [writeBulkStep, if_pos hrange]
  have ht : ((i : Int)).toNat = i := by omega
  cases bv
  · simp only [Bool.false_eq_true, if_false, ht, Nat.testBit_and, mask255_testBit,
      shiftLeft_one_testBit]
    simp [hi]
  · simp only [if_true, ht, Nat.testBit_or, shiftLeft_one_testBit]
    simp

lemma writeBulkStep_testBit_skip (s : Nat) (e : Int × Bool) (i : Nat) (hi : i < 8)
    (hne : e.1 ≠ (i : Int)) : (writeBulkStep s e).testBit i = s.testBit i := by
  rw [writeBulkStep]
  by_cases hr : 0 ≤ e.1 ∧ e.1 < (number_of_pins : Int)
  · rw [if_pos hr]
    have htn : e.1.toNat ≠ i := by omega
    cases hb : e.2
    · simp only [Bool.false_eq_true, if_false, Nat.testBit_and, mask255_testBit,
        shiftLeft_one_testBit]
      simp [hi, htn, Ne.symm htn]
    · simp only [if_true, Nat.testBit_or, shiftLeft_one_testBit]
      simp [Ne.symm htn]
  · rw [if_neg hr]

lemma bulkShadow_testBit (pins : List (Int × Bool)) (s : Nat) (i : Nat) (hi : i < 8)
    (hnd : (pins.map Prod.fst).Nodup) :
    (pins.foldl writeBulkStep s).testBit i
      = ((pins.lookup (i : Int)).getD (s.testBit i)) := by
  induction pins generalizing s with
  | nil => rfl
  | cons hd tl ih =>
    obtain ⟨hhd, htl⟩ := List.nodup_cons.mp hnd
    rw [List.foldl_cons]
    by_cases hk : hd.1 = (i : Int)
    · have hmem : ((i : Int)) ∉ tl.map Prod.fst := hk ▸ hhd
      rw [ih _ htl, lookup_eq_none tl _ hmem, Option.getD_none]
      obtain ⟨k, bv⟩ := hd
      simp only at hk
      subst hk
      rw [lookup_cons_self, Option.getD_some, writeBulkStep_testBit_self s bv i hi]
    · rw [ih _ htl, writeBulkStep_testBit_skip s hd i hi hk]
      obtain ⟨k, bv⟩ := hd
      rw [lookup_cons_ne tl _ k bv (fun h => hk h.symm)]

/-- C5: `digital_write_bulk` starts from the current shadow, sets the bit
of every in-range pin mapped to `true`, clears the bit of every in-range
pin mapped to `false`, leaves every other bit of the 8-bit field as it
was (out-of-range entries are ignored), hands that value to one `write`
call — so exactly one bus write happens, also for an empty mapping — and
never changes the direction mask. -/
theorem digital_write_bulk_spec (p : Port) (pins : List (Int × Bool)) (i : Nat)
    (hnd : (pins.map Prod.fst).Nodup) (hi : i < 8) :
    (pins.foldl writeBulkStep p.shadow).testBit i
      = ((pins.lookup (i : Int)).getD (p.shadow.testBit i)) ∧
    digital_write_bulk p pins = write p (pins.foldl writeBulkStep p.shadow) ∧
    (digital_write_bulk p pins).2
      = [BusEvent.wr p.address (digital_write_bulk p pins).1.shadow] ∧
    (digital_write_bulk p pins).1.dirmask = p.dirmask :=
  ⟨bulkShadow_testBit pins p.shadow i hi hnd, rfl, rfl, rfl⟩

/-- Witness for C5: pins `{0: true, 9: true, 2: false}` on shadow `0b101`,
checked at bit 2. -/
theorem digital_write_bulk_spec_witness :
    (([((0 : Int), true), (9, true), (2, false)].map Prod.fst).Nodup) ∧ (2 : Nat) < 8 ∧
      (([((0 : Int), true), (9, true), (2, false)].foldl writeBulkStep 5).testBit 2
          = (([((0 : Int), true), (9, true), (2, false)].lookup ((2 : Nat) : Int)).getD
              ((5 : Nat).testBit 2)) ∧
        digital_write_bulk ⟨32, 0, 5⟩ [((0 : Int), true), (9, true), (2, false)]
          = write ⟨32, 0, 5⟩ ([((0 : Int), true), (9, true), (2, false)].foldl writeBulkStep 5) ∧
        (digital_write_bulk ⟨32, 0, 5⟩ [((0 : Int), true), (9, true), (2, false)]).2
          = [BusEvent.wr 32
              (digital_write_bulk ⟨32, 0, 5⟩ [((0 : Int), true), (9, true), (2, false)]).1.shadow] ∧
        (digital_write_bulk ⟨32, 0, 5⟩ [((0 : Int), true), (9, true), (2, false)]).1.dirmask = 0) :=
  ⟨by decide, by decide,
    digital_write_bulk_spec ⟨32, 0, 5⟩ [((0 : Int), true), (9, true), (2, false)] 2
      (by decide) (by decide)⟩

/-- C6: for any device address and any initial byte read at construction:
after `port_mode true` the shadow is `0x00`; after `pin_mode 3 false`
(immediate) direction bit 3 is cleared and `shadow &&& dirmask = 0`
still holds; `digital_write 3 true` then leaves shadow `0b00001000` and
transmits `0x08`; `pin_mode 3 true` (immediate) then transmits `0x00`
and clears shadow bit 3. -/
theorem scenario_spec (addr b : Nat) :
    (port_mode (initPort addr b) true).1.shadow = 0 ∧
    ((pin_mode (port_mode (initPort addr b) true).1 3 false false).1.dirmask.testBit 3
        = false ∧
      (pin_mode (port_mode (initPort addr b) true).1 3 false false).1.shadow &&&
        (pin_mode (port_mode (initPort addr b) true).1 3 false false).1.dirmask = 0) ∧
    ((digital_write (pin_mode (port_mode (initPort addr b) true).1 3 false false).1
        3 true).1.shadow = 0b00001000 ∧
      (digital_write (pin_mode (port_mode (initPort addr b) true).1 3 false false).1
        3 true).2 = [BusEvent.wr addr 0x08]) ∧
    ((pin_mode (digital_write (pin_mode (port_mode (initPort addr b) true).1
          3 false false).1 3 true).1 3 true false).2 = [BusEvent.wr addr 0x00] ∧
      (pin_mode (digital_write (pin_mode (port_mode (initPort addr b) true).1
          3 false false).1 3 true).1 3 true false).1.shadow.testBit 3 = false) := by
  have h1 : port_mode (initPort addr b) true = (⟨addr, 255, 0⟩, [BusEvent.wr addr 0]) := by
    show ((⟨addr, u8 0xFF, b &&& (255 ^^^ u8 (u8 0xFF))⟩ : Port),
        [BusEvent.wr addr (b &&& (255 ^^^ u8 (u8 0xFF)))]) = (⟨addr, 255, 0⟩, [BusEvent.wr addr 0])
    rw [show (255 ^^^ u8 (u8 0xFF) : Nat) = 0 from rfl, Nat.and_zero]
    rfl
  have h2 : pin_mode (⟨addr, 255, 0⟩ : Port) 3 false false
      = (⟨addr, 247, 0⟩, [BusEvent.wr addr 0]) := by
    show ((⟨addr, 255 &&& (255 ^^^ u8 (1 <<< 3)),
        0 &&& (255 ^^^ u8 (255 &&& (255 ^^^ u8 (1 <<< 3))))⟩ : Port),
        [BusEvent.wr addr (0 &&& (255 ^^^ u8 (255 &&& (255 ^^^ u8 (1 <<< 3)))))])
      = (⟨addr, 247, 0⟩, [BusEvent.wr addr 0])
    rfl
  have h3 : digital_write (⟨addr, 247, 0⟩ : Port) 3 true
      = (⟨addr, 247, 8⟩, [BusEvent.wr addr 8]) := by
    show ((⟨addr, 247, ([((3 : Int), true)].foldl writeBulkStep 0) &&& (255 ^^^ u8 247)⟩ : Port),
        [BusEvent.wr addr (([((3 : Int), true)].foldl writeBulkStep 0) &&& (255 ^^^ u8 247))])
      = (⟨addr, 247, 8⟩, [BusEvent.wr addr 8])
    rfl
  have h4 : pin_mode (⟨addr, 247, 8⟩ : Port) 3 true false
      = (⟨addr, 255, 0⟩, [BusEvent.wr addr 0]) := by
    show ((⟨addr, 247 ||| u8 (1 <<< 3), 8 &&& (255 ^^^ u8 (247 ||| u8 (1 <<< 3)))⟩ : Port),
        [BusEvent.wr addr (8 &&& (255 ^^^ u8 (247 ||| u8 (1 <<< 3))))])
      = (⟨addr, 255, 0⟩, [BusEvent.wr addr 0])
    rfl
  rw [h1, h2, h3, h4]
  refine ⟨rfl, ⟨?_, ?_⟩, ⟨rfl, rfl⟩, ⟨rfl, ?_⟩⟩
  · show Nat.testBit 247 3 = false
    rfl
  · show (0 : Nat) &&& 247 = 0
    rfl
  · show Nat.testBit 0 3 = false
    rfl

/-- C7: an out-of-range pin is not an error, with the asymmetric signal:
`digital_read_bulk` answers `none` for it, while `digital_write_bulk`
silently ignores it, producing exactly the same result (state and bus
write) as the empty mapping. -/
theorem out_of_range_asymmetry (p : Port) (pin : Int) (b : Nat)
    (h : pin < 0 ∨ 8 ≤ pin) :
    (digital_read_bulk p [pin] b).1 = [(pin, none)] ∧
    digital_write_bulk p [(pin, true)] = digital_write_bulk p [] := by
  have hnot : ¬ (0 ≤ pin ∧ pin < (number_of_pins : Int)) := by
    simp only [number_of_pins]
    omega
  constructor
  · show [(pin, readBulkEntry (p.dirmask &&& u8 b) pin)] = [(pin, none)]
    rw [readBulkEntry, if_neg hnot]
  · show write p ([(pin, true)].foldl writeBulkStep p.shadow)
        = write p ([].foldl writeBulkStep p.shadow)
    rw [List.foldl_cons, List.foldl_nil, List.foldl_nil, writeBulkStep, if_neg hnot]

/-- Witness for C7 at pin 9. -/
theorem out_of_range_asymmetry_witness :
    ((9 : Int) < 0 ∨ (8 : Int) ≤ 9) ∧
      ((digital_read_bulk ⟨32, 0, 5⟩ [9] 0).1 = [((9 : Int), none)] ∧
        digital_write_bulk ⟨32, 0, 5⟩ [((9 : Int), true)] = digital_write_bulk ⟨32, 0, 5⟩ []) :=
  ⟨by decide, out_of_range_asymmetry ⟨32, 0, 5⟩ 9 0 (by decide)⟩

/-- C8 counterexample: the claim "for every nonzero value,
`analog_write pin value` behaves identically to
`digital_write pin true`" fails at the nonzero value `-1`: the code
computes `value > 0`, which is false for `-1`. -/
theorem analog_write_nonzero_counterexample :
    (-1 : Int) ≠ 0 ∧
      analog_write ⟨32, 0, 1⟩ 0 (-1) ≠ digital_write ⟨32, 0, 1⟩ 0 true := by
  decide

/-- C8 (amended): for every positive value `analog_write` behaves
identically to `digital_write pin true`, and for every value less than
or equal to zero (in particular zero) it behaves identically to
`digital_write pin false`. -/
theorem analog_write_spec (p : Port) (pin : Int) (v : Int) :
    (0 < v → analog_write p pin v = digital_write p pin true) ∧
    (v ≤ 0 → analog_write p pin v = digital_write p pin false) := by
  constructor
  · intro h
    show digital_write p pin (decide (v > 0)) = _
    rw [decide_eq_true h]
  · intro h
    show digital_write p pin (decide (v > 0)) = _
    rw [decide_eq_false (by omega : ¬ (v > 0))]

/-- Witness for C8 (amended) at values 7 and 0. -/
theorem analog_write_spec_witness :
    analog_write ⟨32, 0, 5⟩ 2 7 = digital_write ⟨32, 0, 5⟩ 2 true ∧
      analog_write ⟨32, 0, 5⟩ 2 0 = digital_write ⟨32, 0, 5⟩ 2 false :=
  ⟨(analog_write_spec ⟨32, 0, 5⟩ 2 7).1 (by decide),
    (analog_write_spec ⟨32, 0, 5⟩ 2 0).2 (by decide)⟩

/-- C9: `analog_read` answers exactly 255 or exactly 0, and it answers
255 precisely when `digital_read` answers `True`. -/
theorem analog_read_spec (p : Port) (pin : Int) (b : Nat) :
    ((analog_read p pin b).1 = 255 ∨ (analog_read p pin b).1 = 0) ∧
    ((analog_read p pin b).1 = 255 ↔ (digital_read p pin b).1 = some true) := by
  by_cases h : (digital_read p pin b).1 = some true <;> simp [analog_read, h]

/-- C10: on an out-of-range pin, `digital_read` answers `None` (not a
boolean), and `analog_read` answers 0 (`None` is falsy). -/
theorem digital_read_out_of_range (p : Port) (pin : Int) (b : Nat)
    (h : pin < 0 ∨ 8 ≤ pin) :
    (digital_read p pin b).1 = none ∧ (analog_read p pin b).1 = 0 := by
  have hnot : ¬ (0 ≤ pin ∧ pin < (number_of_pins : Int)) := by
    simp only [number_of_pins]
    omega
  have hdr : (digital_read p pin b).1 = none := by
    show ((([(pin, readBulkEntry (p.dirmask &&& u8 b) pin)] :
        List (Int × Option Bool)).lookup pin).getD none) = none
    rw [readBulkEntry, if_neg hnot, lookup_cons_self]
    rfl
  refine ⟨hdr, ?_⟩
  show (if (digital_read p pin b).1 = some true then 255 else 0) = 0
  rw [hdr]
  simp

/-- Witness for C10 at pin -3. -/
theorem digital_read_out_of_range_witness :
    ((-3 : Int) < 0 ∨ (8 : Int) ≤ -3) ∧
      ((digital_read ⟨32, 255, 0⟩ (-3) 0xFF).1 = none ∧
        (analog_read ⟨32, 255, 0⟩ (-3) 0xFF).1 = 0) :=
  ⟨by decide, digital_read_out_of_range ⟨32, 255, 0⟩ (-3) 0xFF (by decide)⟩

end PCF8574IO
